import Mathlib

/-!
Shallow embedding of the frame-extraction pipeline in src/video2frame.py and of
the read-path loader in src/examples/pytorch_hdf5_video_dataset.py.

A frame, as produced by video_to_frames, is a pair of the integer parsed from
the image file name (its 1-based transcoder ordinal) and the file name itself.
Frame lists handed to the sampler are sorted by that integer, with all integers
distinct, because they come from distinct file names of one directory.

Python floating-point expressions in the sampler are modelled over the
rationals: step = (tot - 1.) / (n - 1) is exact in IEEE double for every list
length that can occur, and the built-in round implements rounding half to even,
which pyRound reproduces over the rationals.
-/

namespace Video2Frame

/-- A frame: (integer parsed from the file name, file name). -/
abbrev Frame := Nat × String

/-- Errors that sample_frames can raise: the assert on n, the AttributeError
for an unknown mode, and an IndexError from the list indexing. -/
inductive SampleErr where
  | invalidParameter
  | unsupportedMode
  | indexError
  deriving DecidableEq, Repr

/-- Python round: round half to even (banker's rounding), over the rationals. -/
def pyRound (q : ℚ) : ℤ :=
  let f := ⌊q⌋
  let r := q - (f : ℚ)
  if r < 1/2 then f
  else if 1/2 < r then f + 1
  else if f % 2 = 0 then f else f + 1

/-- Python list indexing xs[i]: negative i counts from the end; out of range
raises IndexError. -/
def pyIndexE (xs : List Frame) (i : ℤ) : Except SampleErr Frame :=
  let j := if i < 0 then (xs.length : ℤ) + i else i
  if 0 ≤ j then
    match xs[j.toNat]? with
    | some v => .ok v
    | none => .error .indexError
  else .error .indexError

/-- A Python list comprehension [f x for x in l] where f may raise. -/
def mapExcept (f : α → Except ε β) : List α → Except ε (List β)
  | [] => .ok []
  | a :: as => do
    let b ← f a
    let bs ← mapExcept f as
    .ok (b :: bs)

/-- The index list of uniform sampling (sample_mode 1): [tot >> 1] when n = 1,
otherwise [round(x * (tot - 1) / (n - 1)) for x in range(n)]. -/
def uniformIndices (tot : Nat) (n : ℤ) : List ℤ :=
  if n = 1 then [(tot / 2 : ℕ)]
  else (List.range n.toNat).map
    (fun (x : ℕ) => pyRound ((x : ℚ) * (((tot : ℚ) - 1) / ((n : ℚ) - 1))))

/-- Python slicing frames[::k] for k ≥ 1: every k-th element from index 0. -/
def everyNth : List Frame → Nat → List Frame
  | [], _ => []
  | x :: xs, k => x :: everyNth (xs.drop (k - 1)) k
termination_by l _ => l.length
decreasing_by
  simp only [List.length_drop, List.length_cons]
  omega

/-- sample_frames of src/video2frame.py. mode is args.sample_mode, n the
integer parsed from args.sample. The call random.shuffle(frames) is modelled
by the function shuf, which stands for the permutation the shuffle produced;
theorems quantify over every shuf whose output is a permutation of its input. -/
def sample_frames (mode : Nat) (n : ℤ) (shuf : List Frame → List Frame)
    (frames : List Frame) : Except SampleErr (List Frame) :=
  if mode = 0 then .ok frames
  else if n ≤ 0 then .error .invalidParameter
  else
    let tot := frames.length
    if mode = 1 then
      mapExcept (pyIndexE frames) (uniformIndices tot n)
    else if mode = 2 then
      .ok (((shuf frames).take (min n.toNat tot)).mergeSort
        (fun a b => a.1 ≤ b.1))
    else if mode = 3 then
      .ok (everyNth frames n.toNat)
    else .error .unsupportedMode

/-! Helper lemmas about the embedding. -/

theorem pyRound_intCast (z : ℤ) : pyRound (z : ℚ) = z := by
  unfold pyRound
  simp

theorem pyIndexE_ofNat (xs : List Frame) (s : Nat) (h : s < xs.length) :
    pyIndexE xs (s : ℤ) = .ok (xs.get ⟨s, h⟩) := by
  have h0 : ¬((s : ℤ) < 0) := by omega
  have h1 : (0 : ℤ) ≤ (s : ℤ) := by omega
  unfold pyIndexE
  simp only [if_neg h0, if_pos h1, Int.toNat_ofNat, List.getElem?_eq_getElem h,
    List.get_eq_getElem]

/-- Indexing a list by the consecutive integers s, s+1, ... up to its length
returns its drop at s. -/
theorem mapExcept_pyIndexE_range' (xs : List Frame) :
    ∀ (cnt s : Nat), s + cnt = xs.length →
      mapExcept (pyIndexE xs) ((List.range' s cnt).map (fun (k : ℕ) => (k : ℤ))) =
        .ok (xs.drop s)
  | 0, s, h => by
    have hd : xs.drop s = [] := List.drop_eq_nil_of_le (by omega)
    simp [mapExcept, hd]
  | cnt + 1, s, h => by
    have hs : s < xs.length := by omega
    rw [List.range'_succ]
    simp only [List.map_cons, mapExcept]
    rw [pyIndexE_ofNat xs s hs]
    rw [mapExcept_pyIndexE_range' xs cnt (s + 1) (by omega)]
    show Except.ok (xs[s] :: xs.drop (s + 1)) = Except.ok (xs.drop s)
    rw [List.drop_eq_getElem_cons hs]

theorem getElem?_drop_add (l : List Frame) :
    ∀ (n m : Nat), (l.drop n)[m]? = l[n + m]? := by
  induction l with
  | nil => intro n m; simp
  | cons a l ih =>
    intro n m
    cases n with
    | zero => simp
    | succ n =>
      rw [List.drop_succ_cons, ih n m,
        show n + 1 + m = (n + m) + 1 from by omega, List.getElem?_cons_succ]

theorem everyNth_length : ∀ (l : List Frame) (k : Nat), 0 < k →
    (everyNth l k).length = (l.length + k - 1) / k
  | [], k, hk => by
    rw [everyNth]
    simp [Nat.div_eq_of_lt (by omega : k - 1 < k)]
  | x :: xs, k, hk => by
    rw [everyNth]
    simp only [List.length_cons]
    rw [everyNth_length (xs.drop (k - 1)) k hk]
    simp only [List.length_drop]
    rcases Nat.lt_or_ge xs.length k with hlt | hge
    · have h1 : xs.length - (k - 1) = 0 := by omega
      rw [h1, show 0 + k - 1 = k - 1 from by omega,
        Nat.div_eq_of_lt (by omega : k - 1 < k),
        show xs.length + 1 + k - 1 = xs.length + k from by omega,
        Nat.add_div_right _ hk, Nat.div_eq_of_lt hlt]
    · rw [show xs.length - (k - 1) + k - 1 = xs.length from by omega,
        show xs.length + 1 + k - 1 = xs.length + k from by omega,
        Nat.add_div_right _ hk]
termination_by l _ _ => l.length
decreasing_by
  simp only [List.length_drop, List.length_cons]
  omega

theorem everyNth_getElem? : ∀ (l : List Frame) (k : Nat), 0 < k →
    ∀ (j : Nat), (everyNth l k)[j]? = l[j * k]?
  | [], k, hk, j => by
    rw [everyNth]
    simp
  | x :: xs, k, hk, j => by
    rw [everyNth]
    cases j with
    | zero => simp
    | succ j =>
      rw [List.getElem?_cons_succ,
        everyNth_getElem? (xs.drop (k - 1)) k hk j,
        getElem?_drop_add,
        show (j + 1) * k = (k - 1 + j * k) + 1 from by
          have : 0 < k := hk
          ring_nf
          omega,
        List.getElem?_cons_succ]
termination_by l _ _ _ => l.length
decreasing_by
  simp only [List.length_drop, List.length_cons]
  omega

theorem sample_frames_mode1 (n : ℤ) (hn : 0 < n)
    (shuf : List Frame → List Frame) (frames : List Frame) :
    sample_frames 1 n shuf frames =
      mapExcept (pyIndexE frames) (uniformIndices frames.length n) := by
  unfold sample_frames
  rw [if_neg (by omega : ¬(1 : Nat) = 0), if_neg (by omega : ¬(n ≤ 0)),
    if_pos rfl]

theorem sample_frames_mode3 (n : ℤ) (hn : 0 < n)
    (shuf : List Frame → List Frame) (frames : List Frame) :
    sample_frames 3 n shuf frames = .ok (everyNth frames n.toNat) := by
  unfold sample_frames
  rw [if_neg (by omega : ¬(3 : Nat) = 0), if_neg (by omega : ¬(n ≤ 0)),
    if_neg (by omega : ¬(3 : Nat) = 1), if_neg (by omega : ¬(3 : Nat) = 2),
    if_pos rfl]

theorem sample_frames_mode2 (n : ℤ) (hn : 0 < n)
    (shuf : List Frame → List Frame) (frames : List Frame) :
    sample_frames 2 n shuf frames =
      .ok (((shuf frames).take (min n.toNat frames.length)).mergeSort
        (fun a b => a.1 ≤ b.1)) := by
  unfold sample_frames
  rw [if_neg (by omega : ¬(2 : Nat) = 0), if_neg (by omega : ¬(n ≤ 0)),
    if_neg (by omega : ¬(2 : Nat) = 1), if_pos rfl]

/-- C1: in uniform mode with n = 1, the sampler returns exactly one frame,
the one at position floor(N/2) of the input list (N ≥ 1). -/
theorem uniform_one_sample (shuf : List Frame → List Frame)
    (frames : List Frame) (h : 0 < frames.length) :
    sample_frames 1 1 shuf frames =
      .ok [frames.getD (frames.length / 2) (0, "")] := by
  have hlt : frames.length / 2 < frames.length := Nat.div_lt_self h (by omega)
  rw [sample_frames_mode1 1 (by omega) shuf frames]
  rw [show uniformIndices frames.length 1 =
      [((frames.length / 2 : ℕ) : ℤ)] from rfl]
  rw [show mapExcept (pyIndexE frames) [((frames.length / 2 : ℕ) : ℤ)] =
      (do
        let b ← pyIndexE frames ((frames.length / 2 : ℕ) : ℤ)
        Except.ok [b]) from rfl]
  rw [pyIndexE_ofNat frames (frames.length / 2) hlt]
  show Except.ok [frames.get ⟨frames.length / 2, hlt⟩] = _
  rw [List.getD_eq_getElem?_getD, List.getElem?_eq_getElem hlt]
  simp

/-- C1 witness: a five-frame list yields the frame at position 2. -/
theorem uniform_one_sample_example :
    (0 : Nat) < ([(1, "a"), (2, "b"), (3, "c"), (4, "d"), (5, "e")] :
        List Frame).length ∧
    sample_frames 1 1 id [(1, "a"), (2, "b"), (3, "c"), (4, "d"), (5, "e")] =
      .ok [(3, "c")] :=
  ⟨by decide,
    uniform_one_sample id [(1, "a"), (2, "b"), (3, "c"), (4, "d"), (5, "e")]
      (by decide)⟩

/-- C4: in uniform mode with n = N ≥ 2, the selected positions are exactly
0, 1, ..., N-1 and the sampler returns the whole list in original order,
hence with no duplicates. -/
theorem uniform_n_eq_total (shuf : List Frame → List Frame)
    (frames : List Frame) (h2 : 2 ≤ frames.length) :
    uniformIndices frames.length (frames.length : ℤ) =
      (List.range frames.length).map (fun (k : ℕ) => (k : ℤ)) ∧
    sample_frames 1 (frames.length : ℤ) shuf frames = .ok frames := by
  have hne : ¬((frames.length : ℤ) = 1) := by omega
  have hstep : ((frames.length : ℚ) - 1) / (((frames.length : ℤ) : ℚ) - 1)
      = 1 := by
    rw [div_eq_one_iff_eq]
    · push_cast
      ring
    · push_cast
      intro hc
      have : (frames.length : ℚ) = 1 := by linarith
      have : frames.length = 1 := by exact_mod_cast this
      omega
  have hidx : uniformIndices frames.length (frames.length : ℤ) =
      (List.range frames.length).map (fun (k : ℕ) => (k : ℤ)) := by
    unfold uniformIndices
    rw [if_neg hne, Int.toNat_ofNat]
    apply List.map_congr_left
    intro x _
    rw [hstep, mul_one,
      show ((x : ℕ) : ℚ) = (((x : ℕ) : ℤ) : ℚ) from by push_cast; ring,
      pyRound_intCast]
  refine ⟨hidx, ?_⟩
  rw [sample_frames_mode1 (frames.length : ℤ) (by omega) shuf frames, hidx,
    List.range_eq_range',
    mapExcept_pyIndexE_range' frames frames.length 0 (by omega),
    List.drop_zero]

/-- C4 witness: a three-frame list with n = 3 returns all frames. -/
theorem uniform_n_eq_total_example :
    (2 : Nat) ≤ ([(1, "a"), (2, "b"), (3, "c")] : List Frame).length ∧
    sample_frames 1 3 id [(1, "a"), (2, "b"), (3, "c")] =
      .ok [(1, "a"), (2, "b"), (3, "c")] :=
  ⟨by decide,
    (uniform_n_eq_total id [(1, "a"), (2, "b"), (3, "c")] (by decide)).2⟩

/-- C2: in modulus mode with stride k > 0, the sampler returns the frames at
original indices 0, k, 2k, ..., in that order, and the result has length
ceil(N/k) = (N + k - 1) / k. -/
theorem modulus_sample (shuf : List Frame → List Frame)
    (frames : List Frame) (k : Nat) (hk : 0 < k) :
    ∃ l, sample_frames 3 (k : ℤ) shuf frames = .ok l ∧
      l.length = (frames.length + k - 1) / k ∧
      ∀ (j : Nat), l[j]? = frames[j * k]? := by
  refine ⟨everyNth frames k, ?_, everyNth_length frames k hk,
    everyNth_getElem? frames k hk⟩
  rw [sample_frames_mode3 (k : ℤ) (by omega) shuf frames, Int.toNat_ofNat]

/-- C2 witness: the spec scenario, a 10-frame video with stride 3 yields the
frames with original indices 0, 3, 6, 9, in that order. -/
theorem modulus_sample_example :
    (0 : Nat) < 3 ∧
    ∃ l, sample_frames 3 (3 : ℤ) id
        ([(1, "a"), (2, "b"), (3, "c"), (4, "d"), (5, "e"), (6, "f"),
          (7, "g"), (8, "h"), (9, "i"), (10, "j")] : List Frame) = .ok l ∧
      l.length = (([(1, "a"), (2, "b"), (3, "c"), (4, "d"), (5, "e"),
          (6, "f"), (7, "g"), (8, "h"), (9, "i"), (10, "j")] :
            List Frame).length + 3 - 1) / 3 ∧
      ∀ (j : Nat), l[j]? = ([(1, "a"), (2, "b"), (3, "c"), (4, "d"),
          (5, "e"), (6, "f"), (7, "g"), (8, "h"), (9, "i"), (10, "j")] :
            List Frame)[j * 3]? :=
  ⟨by decide,
    modulus_sample id
      [(1, "a"), (2, "b"), (3, "c"), (4, "d"), (5, "e"), (6, "f"),
        (7, "g"), (8, "h"), (9, "i"), (10, "j")] 3 (by decide)⟩

theorem nodup_fst_of_pairwise_lt (l : List Frame)
    (h : l.Pairwise (fun a b => a.1 < b.1)) : (l.map Prod.fst).Nodup := by
  rw [show (l.map Prod.fst).Nodup =
      (l.map Prod.fst).Pairwise (fun a b => a ≠ b) from rfl, List.pairwise_map]
  exact h.imp (fun h' => Nat.ne_of_lt h')

theorem pairwise_ne_of_nodup_fst (l : List Frame)
    (h : (l.map Prod.fst).Nodup) : l.Pairwise (fun a b => a.1 ≠ b.1) := by
  rw [show (l.map Prod.fst).Nodup =
      (l.map Prod.fst).Pairwise (fun a b => a ≠ b) from rfl,
    List.pairwise_map] at h
  exact h

theorem mergeSort_le_sorted (l : List Frame) :
    (l.mergeSort (fun a b => a.1 ≤ b.1)).Pairwise (fun a b => a.1 ≤ b.1) := by
  have hs := @List.sorted_mergeSort Frame (fun a b => a.1 ≤ b.1)
    (by intro a b c hab hbc; simp only [decide_eq_true_eq] at *; omega)
    (by intro a b; simp only [Bool.or_eq_true, decide_eq_true_eq]; omega) l
  exact hs.imp (by intro a b h; simpa using h)

theorem mergeSort_lt_sorted (l : List Frame)
    (hnd : (l.map Prod.fst).Nodup) :
    (l.mergeSort (fun a b => a.1 ≤ b.1)).Pairwise (fun a b => a.1 < b.1) := by
  have hnd2 : ((l.mergeSort (fun a b => a.1 ≤ b.1)).map Prod.fst).Nodup :=
    (((List.mergeSort_perm _ _).map Prod.fst).nodup_iff).mpr hnd
  exact ((mergeSort_le_sorted l).and
      (pairwise_ne_of_nodup_fst _ hnd2)).imp
    (fun h => Nat.lt_of_le_of_ne h.1 h.2)

/-- C3: in random mode with n > 0, whatever permutation the shuffle produced,
the sampler returns min(n, N) frames in ascending order of their original
index, and when n ≥ N it returns the whole list in original order. The input
list is sorted with distinct indices, as video_to_frames produces it. -/
theorem random_sample (frames shuffled : List Frame) (n : ℤ) (hn : 0 < n)
    (hperm : shuffled.Perm frames)
    (hsort : frames.Pairwise (fun a b => a.1 < b.1)) :
    ∃ l, sample_frames 2 n (fun _ => shuffled) frames = .ok l ∧
      l.length = min n.toNat frames.length ∧
      l.Pairwise (fun a b => a.1 < b.1) ∧
      ((frames.length : ℤ) ≤ n → l = frames) := by
  have hlen : shuffled.length = frames.length := hperm.length_eq
  have hndF : (frames.map Prod.fst).Nodup := nodup_fst_of_pairwise_lt _ hsort
  have hndS : (shuffled.map Prod.fst).Nodup :=
    ((hperm.map Prod.fst).nodup_iff).mpr hndF
  have hndT : ((shuffled.take (min n.toNat frames.length)).map
      Prod.fst).Nodup := ((List.take_sublist _ _).map Prod.fst).nodup hndS
  refine ⟨((shuffled.take (min n.toNat frames.length)).mergeSort
      (fun a b => a.1 ≤ b.1)), ?_, ?_, mergeSort_lt_sorted _ hndT, ?_⟩
  · rw [sample_frames_mode2 n hn (fun _ => shuffled) frames]
  · rw [List.length_mergeSort, List.length_take, hlen]
    omega
  · intro hge
    have hk : min n.toNat frames.length = frames.length := by omega
    rw [hk, List.take_of_length_le (Nat.le_of_eq hlen)]
    have hpermF : (shuffled.mergeSort (fun a b => a.1 ≤ b.1)).Perm frames :=
      (List.mergeSort_perm _ _).trans hperm
    have hsR : List.Sorted (fun (a b : Frame) => a.1 < b.1)
        (shuffled.mergeSort (fun a b => a.1 ≤ b.1)) :=
      mergeSort_lt_sorted _ hndS
    have hsF : List.Sorted (fun (a b : Frame) => a.1 < b.1) frames := hsort
    haveI : IsAntisymm Frame (fun a b => a.1 < b.1) :=
      ⟨fun a b h1 h2 => absurd h2 (Nat.lt_asymm h1)⟩
    exact List.eq_of_perm_of_sorted hpermF hsR hsF

/-- C3 witness: three frames, n = 5 ≥ N, a concrete shuffle; the sampler
returns all three frames in original order. -/
theorem random_sample_example :
    (0 : ℤ) < 5 ∧
    ([(3, "c"), (1, "a"), (2, "b")] : List Frame).Perm
      [(1, "a"), (2, "b"), (3, "c")] ∧
    ([(1, "a"), (2, "b"), (3, "c")] : List Frame).Pairwise
      (fun a b => a.1 < b.1) ∧
    ∃ l, sample_frames 2 5 (fun _ => [(3, "c"), (1, "a"), (2, "b")])
        [(1, "a"), (2, "b"), (3, "c")] = .ok l ∧
      l.length = min (Int.toNat 5)
        ([(1, "a"), (2, "b"), (3, "c")] : List Frame).length ∧
      l.Pairwise (fun a b => a.1 < b.1) ∧
      ((([(1, "a"), (2, "b"), (3, "c")] : List Frame).length : ℤ) ≤ 5 →
        l = [(1, "a"), (2, "b"), (3, "c")]) :=
  ⟨by decide, by decide, by decide,
    random_sample [(1, "a"), (2, "b"), (3, "c")] [(3, "c"), (1, "a"), (2, "b")]
      5 (by decide) (by decide) (by decide)⟩

/-! The storage backends, the per-video processing and the driver loop. -/

/-- Stored value: the raw bytes of one frame file, modelled as a string. -/
abbrev Value := String

/-- Store contents: key-value records in insertion order. -/
abbrev Store := List (String × Value)

def containsKey (st : Store) (k : String) : Bool :=
  st.any (fun e => e.1 == k)

/-- A storage backend: put may fail. close plays no part in the claims. -/
structure Backend where
  put : Store → String → Value → Except Unit Store

/-- LMDBStorage.put delegates to txn.put of the embedded engine. The keys
of this model are the Python str keys that process builds with format;
py-lmdb rejects a non-bytes key with TypeError, so every put this program
issues against the LMDB backend raises before anything is stored. -/
def LMDBStorage_put (_st : Store) (_k : String) (_v : Value) :
    Except Unit Store :=
  .error ()

def LMDBBackend : Backend := ⟨LMDBStorage_put⟩

/-- HDF5Storage.put delegates to database[k] = v of the embedded engine,
which creates a fresh entry and raises when the name already exists. -/
def HDF5Storage_put (st : Store) (k : String) (v : Value) :
    Except Unit Store :=
  if containsKey st k then .error () else .ok (st ++ [(k, v)])

def HDF5Backend : Backend := ⟨HDF5Storage_put⟩

/-- Zero-padded 8-digit decimal, the Python format {:08d} for n ≥ 0. -/
def pad8 (n : Nat) : String :=
  String.mk (List.replicate (8 - (Nat.repr n).length) '0') ++ Nat.repr n

/-- The composite storage key of process: video index / frame position. -/
def fmtKey (vi fi : Nat) : String := pad8 vi ++ "/" ++ pad8 fi

/-- Per-video failures of process: the two RuntimeErrors raised on empty
lists, an error escaping sample_frames, and the RuntimeError "Video exists
in database" that the bare except of the write loop raises. -/
inductive VErr where
  | extractFailed
  | noFrames
  | sampleError (e : SampleErr)
  | duplicate
  deriving DecidableEq, Repr

/-- The write loop of process: for each sampled frame in order, read its
bytes and put them under the composite key; the first failure aborts.
readF stands for opening and reading the frame file. The returned list
records the keys written, in order. -/
def writeLoop (b : Backend) (readF : Frame → Except Unit Value) (vi : Nat) :
    List Frame → Nat → Store → Except Unit (Store × List String)
  | [], _, st => .ok (st, [])
  | f :: fs, i, st =>
    match readF f with
    | .error e => .error e
    | .ok v =>
      match b.put st (fmtKey vi i) v with
      | .error e => .error e
      | .ok st' =>
        match writeLoop b readF vi fs (i + 1) st' with
        | .error e => .error e
        | .ok (st'', ks) => .ok (st'', fmtKey vi i :: ks)

/-- Sampling configuration: args.sample_mode and the integer parsed from
args.sample. -/
structure Config where
  sample_mode : Nat
  sample : ℤ
  deriving DecidableEq, Repr

/-- process of src/video2frame.py for one video: frames is what
video_to_frames returned; any failure of the write loop is reported as
duplicate by the bare except. -/
def process (cfg : Config) (shuf : List Frame → List Frame)
    (readF : Frame → Except Unit Value) (b : Backend) (vi : Nat)
    (frames : List Frame) (st : Store) :
    Except VErr (Store × List String) :=
  if frames.isEmpty then .error .extractFailed
  else
    match sample_frames cfg.sample_mode cfg.sample shuf frames with
    | .error e => .error (.sampleError e)
    | .ok files =>
      if files.isEmpty then .error .noFrames
      else
        match writeLoop b readF vi files 0 st with
        | .error _ => .error .duplicate
        | .ok r => .ok r

/-- The driver loop of the main block: videos pairs each video's path with
the frames its transcoding yields; order is the order in which the per-video
jobs complete (the list order for the sequential mode, any permutation of it
for the thread pool). Every exception of process is caught, turned into a
status line for that video's path, and the loop continues. -/
def runDriver (cfg : Config) (shuf : List Frame → List Frame)
    (readF : Frame → Except Unit Value) (b : Backend)
    (videos : List (String × List Frame)) :
    List Nat → Store → List (String × Except VErr String) × Store
  | [], st => ([], st)
  | i :: rest, st =>
    match process cfg shuf readF b i (videos.getD i ("", [])).2 st with
    | .ok (st', _) =>
      let r := runDriver cfg shuf readF b videos rest st'
      (((videos.getD i ("", [])).1, .ok "OK") :: r.1, r.2)
    | .error e =>
      let r := runDriver cfg shuf readF b videos rest st
      (((videos.getD i ("", [])).1, .error e) :: r.1, r.2)

/-- Grouping of a character list at the separator '/'. -/
def splitSlash : List Char → List (List Char)
  | [] => [[]]
  | c :: cs =>
    let r := splitSlash cs
    if c = '/' then [] :: r
    else
      match r with
      | [] => [[c]]
      | g :: gs => (c :: g) :: gs

/-- The transient working directory of process: the configured tmp root
joined with the base name of the video file (Path(args.tmp_dir) /
video_file.name); the base name is the last '/'-separated component. -/
def pathName (p : String) : String :=
  String.mk ((splitSlash p.data).getLastD [])

def tmpDirFor (tmpRoot videoPath : String) : String :=
  tmpRoot ++ "/" ++ pathName videoPath

/-! Claims about process and the driver. -/

theorem sample_frames_mode0 (n : ℤ) (shuf : List Frame → List Frame)
    (frames : List Frame) :
    sample_frames 0 n shuf frames = .ok frames := by
  unfold sample_frames
  rw [if_pos rfl]

theorem process_invalid (cfg : Config) (shuf : List Frame → List Frame)
    (readF : Frame → Except Unit Value) (b : Backend) (vi : Nat)
    (frames : List Frame) (st : Store)
    (hm : cfg.sample_mode ≠ 0) (hn : cfg.sample ≤ 0) :
    ∃ e, process cfg shuf readF b vi frames st = .error e ∧
      (e = .extractFailed ∨ e = .sampleError .invalidParameter) := by
  have hs : sample_frames cfg.sample_mode cfg.sample shuf frames =
      .error .invalidParameter := by
    unfold sample_frames
    rw [if_neg hm, if_pos hn]
  by_cases hfr : frames.isEmpty
  · refine ⟨.extractFailed, ?_, Or.inl rfl⟩
    unfold process
    rw [if_pos hfr]
  · refine ⟨.sampleError .invalidParameter, ?_, Or.inr rfl⟩
    unfold process
    rw [if_neg hfr, hs]

/-- C5 counterexample: under the invalid sampling configuration mode 1 with
n = 0, a two-video run still processes both videos; each fails on its own
with InvalidParameter inside processing, after its transcoding step, so the
run does not abort before any video is processed. -/
theorem invalid_config_processes_all :
    runDriver ⟨1, 0⟩ id (fun f => .ok f.2) HDF5Backend
      [("a.mp4", [(1, "00000001.jpg")]), ("b.mp4", [(1, "00000001.jpg")])]
      [0, 1] [] =
    ([("a.mp4", .error (.sampleError .invalidParameter)),
      ("b.mp4", .error (.sampleError .invalidParameter))], []) := by
  rfl

/-- C5 amended: an invalid sampling configuration (mode other than keep_all
with n ≤ 0) is not detected before processing; each video is still
attempted, and each fails individually with InvalidParameter (or, for a
video whose transcoding yields no frame, with the extraction failure); no
frame of any video is written to the store. -/
theorem invalid_config_no_writes (cfg : Config)
    (shuf : List Frame → List Frame) (readF : Frame → Except Unit Value)
    (b : Backend) (videos : List (String × List Frame)) (order : List Nat)
    (st0 : Store) (hm : cfg.sample_mode ≠ 0) (hn : cfg.sample ≤ 0) :
    (runDriver cfg shuf readF b videos order st0).2 = st0 ∧
    (runDriver cfg shuf readF b videos order st0).1.length = order.length ∧
    ∀ pr ∈ (runDriver cfg shuf readF b videos order st0).1,
      pr.2 = .error .extractFailed ∨
        pr.2 = .error (.sampleError .invalidParameter) := by
  induction order generalizing st0 with
  | nil => exact ⟨rfl, rfl, by intro pr hpr; cases hpr⟩
  | cons i rest ih =>
    obtain ⟨e, hp, he⟩ := process_invalid cfg shuf readF b i
      (videos.getD i ("", [])).2 st0 hm hn
    have hstep : runDriver cfg shuf readF b videos (i :: rest) st0 =
        (((videos.getD i ("", [])).1, .error e) ::
            (runDriver cfg shuf readF b videos rest st0).1,
          (runDriver cfg shuf readF b videos rest st0).2) := by
      rw [runDriver, hp]
    obtain ⟨ih1, ih2, ih3⟩ := ih st0
    rw [hstep]
    refine ⟨ih1, by simp [ih2], ?_⟩
    intro pr hpr
    rcases List.mem_cons.mp hpr with hpr | hpr
    · subst hpr
      rcases he with he | he <;> subst he
      · exact Or.inl rfl
      · exact Or.inr rfl
    · exact ih3 pr hpr

/-- C5 amended witness: concrete invalid run leaves the store empty and both
videos fail with InvalidParameter. -/
theorem invalid_config_no_writes_example :
    (runDriver ⟨1, 0⟩ id (fun f => .ok f.2) HDF5Backend
      [("a.mp4", [(1, "x")]), ("b.mp4", [(1, "y")])] [0, 1] []).2 = [] ∧
    (runDriver ⟨1, 0⟩ id (fun f => .ok f.2) HDF5Backend
      [("a.mp4", [(1, "x")]), ("b.mp4", [(1, "y")])] [0, 1] []).1.length =
      ([0, 1] : List Nat).length ∧
    ∀ pr ∈ (runDriver ⟨1, 0⟩ id (fun f => .ok f.2) HDF5Backend
      [("a.mp4", [(1, "x")]), ("b.mp4", [(1, "y")])] [0, 1] []).1,
      pr.2 = .error .extractFailed ∨
        pr.2 = .error (.sampleError .invalidParameter) :=
  invalid_config_no_writes ⟨1, 0⟩ id (fun f => .ok f.2) HDF5Backend
    [("a.mp4", [(1, "x")]), ("b.mp4", [(1, "y")])] [0, 1] []
    (by decide) (by decide)

theorem runDriver_paths (cfg : Config) (shuf : List Frame → List Frame)
    (readF : Frame → Except Unit Value) (b : Backend)
    (videos : List (String × List Frame)) (order : List Nat) :
    ∀ st0 : Store,
      (runDriver cfg shuf readF b videos order st0).1.map Prod.fst =
        order.map (fun i => (videos.getD i ("", [])).1) := by
  induction order with
  | nil => intro st0; rfl
  | cons i rest ih =>
    intro st0
    cases hp : process cfg shuf readF b i (videos.getD i ("", [])).2 st0 with
    | ok r =>
      obtain ⟨st', ks⟩ := r
      have hstep : runDriver cfg shuf readF b videos (i :: rest) st0 =
          (((videos.getD i ("", [])).1, .ok "OK") ::
              (runDriver cfg shuf readF b videos rest st').1,
            (runDriver cfg shuf readF b videos rest st').2) := by
        rw [runDriver, hp]
      rw [hstep, List.map_cons, ih st', List.map_cons]
    | error e =>
      have hstep : runDriver cfg shuf readF b videos (i :: rest) st0 =
          (((videos.getD i ("", [])).1, .error e) ::
              (runDriver cfg shuf readF b videos rest st0).1,
            (runDriver cfg shuf readF b videos rest st0).2) := by
        rw [runDriver, hp]
      rw [hstep, List.map_cons, ih st0, List.map_cons]

theorem getD_range_map (videos : List (String × List Frame)) :
    (List.range videos.length).map (fun i => (videos.getD i ("", [])).1) =
      videos.map Prod.fst := by
  induction videos with
  | nil => rfl
  | cons v vs ih =>
    rw [List.length_cons, List.range_succ_eq_map, List.map_cons,
      List.map_map]
    simp only [List.getD_cons_zero, List.map_cons]
    congr 1

/-- C7: for any completion order that is a permutation of the video indices
(the identity order in sequential mode, any permutation under the thread
pool), the driver emits exactly one outcome per video, tagged with that
video's path, whatever each process call returns — a failing video never
prevents a sibling from being attempted. -/
theorem every_video_attempted (cfg : Config)
    (shuf : List Frame → List Frame) (readF : Frame → Except Unit Value)
    (b : Backend) (videos : List (String × List Frame)) (order : List Nat)
    (st0 : Store) (h : order.Perm (List.range videos.length)) :
    ((runDriver cfg shuf readF b videos order st0).1.map Prod.fst).Perm
      (videos.map Prod.fst) ∧
    (runDriver cfg shuf readF b videos order st0).1.length =
      videos.length := by
  have hp := runDriver_paths cfg shuf readF b videos order st0
  constructor
  · rw [hp, ← getD_range_map videos]
    exact h.map _
  · have hlen := congrArg List.length hp
    simp only [List.length_map] at hlen
    rw [hlen, h.length_eq, List.length_range]

/-- C7 witness: two videos completed in reverse order, the first of which
fails (no frames); both outcomes are reported. -/
theorem every_video_attempted_example :
    (([1, 0] : List Nat).Perm (List.range 2)) ∧
    ((runDriver ⟨0, 0⟩ id (fun f => .ok f.2) HDF5Backend
        [("a.mp4", []), ("b.mp4", [(1, "x")])] [1, 0] []).1.map
        Prod.fst).Perm
      (([("a.mp4", []), ("b.mp4", [(1, "x")])] :
        List (String × List Frame)).map Prod.fst) ∧
    (runDriver ⟨0, 0⟩ id (fun f => .ok f.2) HDF5Backend
        [("a.mp4", []), ("b.mp4", [(1, "x")])] [1, 0] []).1.length =
      ([("a.mp4", []), ("b.mp4", [(1, "x")])] :
        List (String × List Frame)).length :=
  ⟨by decide,
    (every_video_attempted ⟨0, 0⟩ id (fun f => .ok f.2) HDF5Backend
      [("a.mp4", []), ("b.mp4", [(1, "x")])] [1, 0] [] (by decide)).1,
    (every_video_attempted ⟨0, 0⟩ id (fun f => .ok f.2) HDF5Backend
      [("a.mp4", []), ("b.mp4", [(1, "x")])] [1, 0] [] (by decide)).2⟩

theorem writeLoop_keys (b : Backend) (readF : Frame → Except Unit Value)
    (vi : Nat) (fs : List Frame) :
    ∀ (i : Nat) (st st' : Store) (ks : List String),
      writeLoop b readF vi fs i st = .ok (st', ks) →
      ks = (List.range fs.length).map (fun p => fmtKey vi (i + p)) := by
  induction fs with
  | nil =>
    intro i st st' ks h
    rw [writeLoop] at h
    cases h
    rfl
  | cons f fs ih =>
    intro i st st' ks h
    rw [writeLoop] at h
    cases hv : readF f with
    | error e => rw [hv] at h; simp at h
    | ok v =>
      rw [hv] at h
      simp only [] at h
      cases hput : b.put st (fmtKey vi i) v with
      | error e => rw [hput] at h; simp at h
      | ok st1 =>
        rw [hput] at h
        simp only [] at h
        cases hrec : writeLoop b readF vi fs (i + 1) st1 with
        | error e => rw [hrec] at h; simp at h
        | ok r =>
          obtain ⟨st2, ks2⟩ := r
          rw [hrec] at h
          simp only [Except.ok.injEq, Prod.mk.injEq] at h
          obtain ⟨h1, h2⟩ := h
          rw [← h2, ih (i + 1) st1 st2 ks2 hrec,
            List.length_cons, List.range_succ_eq_map, List.map_cons,
            List.map_map]
          congr 1
          apply List.map_congr_left
          intro p _
          simp only [Function.comp_apply]
          congr 1
          omega

/-- C8: whenever process succeeds, the keys it wrote for the video are
exactly the composite zero-padded keys of the video index with the
positions 0, 1, ..., m-1, in that order, where m is the number of sampled
frames: strictly increasing positions, no gaps, starting at 0. -/
theorem process_keys_exact (cfg : Config) (shuf : List Frame → List Frame)
    (readF : Frame → Except Unit Value) (b : Backend) (vi : Nat)
    (frames : List Frame) (st st' : Store) (ks : List String)
    (h : process cfg shuf readF b vi frames st = .ok (st', ks)) :
    ∃ files, sample_frames cfg.sample_mode cfg.sample shuf frames =
        .ok files ∧
      ks = (List.range files.length).map (fun p => fmtKey vi p) := by
  unfold process at h
  by_cases hfr : frames.isEmpty
  · rw [if_pos hfr] at h
    exact absurd h (by simp)
  · rw [if_neg hfr] at h
    cases hs : sample_frames cfg.sample_mode cfg.sample shuf frames with
    | error e => rw [hs] at h; simp at h
    | ok files =>
      rw [hs] at h
      by_cases hfi : files.isEmpty
      · simp only [if_pos hfi] at h
        exact absurd h (by simp)
      · simp only [if_neg hfi] at h
        cases hw : writeLoop b readF vi files 0 st with
        | error e => rw [hw] at h; simp at h
        | ok r =>
          obtain ⟨stw, ksw⟩ := r
          rw [hw] at h
          simp only [Except.ok.injEq, Prod.mk.injEq] at h
          obtain ⟨h1, h2⟩ := h
          refine ⟨files, rfl, ?_⟩
          rw [← h2, writeLoop_keys b readF vi files 0 st stw ksw hw]
          apply List.map_congr_left
          intro p _
          rw [Nat.zero_add]

/-- C8 witness: a two-frame video under keep_all writes exactly the keys of
positions 0 and 1. -/
theorem process_keys_exact_example :
    process ⟨0, 0⟩ id (fun f => .ok f.2) HDF5Backend 3
        [(1, "x"), (2, "y")] [] =
      .ok ([(fmtKey 3 0, "x"), (fmtKey 3 1, "y")], [fmtKey 3 0, fmtKey 3 1]) ∧
    ∃ files, sample_frames 0 0 id [(1, "x"), (2, "y")] = .ok files ∧
      [fmtKey 3 0, fmtKey 3 1] =
        (List.range files.length).map (fun p => fmtKey 3 p) :=
  ⟨by rfl,
    process_keys_exact ⟨0, 0⟩ id (fun f => .ok f.2) HDF5Backend 3
      [(1, "x"), (2, "y")] []
      [(fmtKey 3 0, "x"), (fmtKey 3 1, "y")] [fmtKey 3 0, fmtKey 3 1]
      (by rfl)⟩

/-! C6: key collisions in the write loop. -/

theorem writeLoop_lmdb_fails (readF : Frame → Except Unit Value)
    (vi i : Nat) (f : Frame) (fs : List Frame) (st : Store) :
    writeLoop LMDBBackend readF vi (f :: fs) i st = .error () := by
  rw [writeLoop]
  cases hv : readF f with
  | error e => rfl
  | ok v => rfl

theorem writeLoop_hdf5_collision (vi : Nat) (f : Frame) (fs : List Frame)
    (st : Store) (hc : containsKey st (fmtKey vi 0) = true) :
    writeLoop HDF5Backend (fun x => .ok x.2) vi (f :: fs) 0 st =
      .error () := by
  rw [writeLoop]
  simp only [HDF5Backend, HDF5Storage_put, hc]
  rfl

theorem writeLoop_read_fails (b : Backend) (vi i : Nat) (f : Frame)
    (fs : List Frame) (st : Store) :
    writeLoop b (fun _ => .error ()) vi (f :: fs) i st = .error () := by
  rw [writeLoop]

theorem process_keepall_eq (readF : Frame → Except Unit Value) (b : Backend)
    (vi : Nat) (f : Frame) (fs : List Frame) (st : Store) :
    process ⟨0, 0⟩ id readF b vi (f :: fs) st =
      match writeLoop b readF vi (f :: fs) 0 st with
      | .error _ => .error .duplicate
      | .ok r => .ok r := by
  unfold process
  rw [if_neg (by simp), sample_frames_mode0]
  simp only []
  rw [if_neg (by simp)]

/-- C6 amended: in the write loop under keep_all sampling, with the HDF5
backend a key collision makes process fail with the duplicate error, but
the failure is not specific to collisions — any exception in the loop, such
as a failing frame read, is reported the same way on either backend — and
with the LMDB backend every put raises (py-lmdb rejects the unencoded str
key with TypeError), so every video with at least one sampled frame fails
with the duplicate error whether or not any of its keys pre-exists. -/
theorem duplicate_error_characterization (st : Store) (vi : Nat) (f : Frame)
    (fs : List Frame) :
    (containsKey st (fmtKey vi 0) = true →
      process ⟨0, 0⟩ id (fun x => .ok x.2) HDF5Backend vi (f :: fs) st =
        .error .duplicate) ∧
    (∀ readF : Frame → Except Unit Value,
      process ⟨0, 0⟩ id readF LMDBBackend vi (f :: fs) st =
        .error .duplicate) ∧
    (∀ b : Backend,
      process ⟨0, 0⟩ id (fun _ => .error ()) b vi (f :: fs) st =
        .error .duplicate) := by
  refine ⟨?_, ?_, ?_⟩
  · intro hc
    rw [process_keepall_eq, writeLoop_hdf5_collision vi f fs st hc]
  · intro readF
    rw [process_keepall_eq, writeLoop_lmdb_fails readF vi 0 f fs st]
  · intro b
    rw [process_keepall_eq, writeLoop_read_fails b vi 0 f fs st]

/-- C6 counterexample: with the LMDB backend and an empty store, no write
collides with a pre-existing key, yet the per-video operation still fails
with the duplicate error: the put itself raises on the str key and the bare
except reports it as "Video exists in database", so a key collision is not
the only source of this failure. -/
theorem duplicate_without_collision :
    containsKey [] (fmtKey 0 0) = false ∧
    process ⟨0, 0⟩ id (fun x => .ok x.2) LMDBBackend 0 [(1, "new")] [] =
      .error .duplicate := by
  constructor
  · rfl
  · rfl

/-- C6 amended witness: the three parts at a concrete store and video. -/
theorem duplicate_error_characterization_example :
    process ⟨0, 0⟩ id (fun x => .ok x.2) HDF5Backend 0 [(1, "new")]
        [(fmtKey 0 0, "old")] = .error .duplicate ∧
    process ⟨0, 0⟩ id (fun x => .ok x.2) LMDBBackend 0 [(1, "new")]
        [(fmtKey 0 0, "old")] = .error .duplicate ∧
    process ⟨0, 0⟩ id (fun _ => .error ()) HDF5Backend 0 [(1, "new")]
        [(fmtKey 0 0, "old")] = .error .duplicate :=
  ⟨(duplicate_error_characterization [(fmtKey 0 0, "old")] 0 (1, "new")
      []).1 (by rfl),
    (duplicate_error_characterization [(fmtKey 0 0, "old")] 0 (1, "new")
      []).2.1 (fun x => .ok x.2),
    (duplicate_error_characterization [(fmtKey 0 0, "old")] 0 (1, "new")
      []).2.2 HDF5Backend⟩

/-! C9: the transient working directory name. -/

/-- C9 counterexample: two distinct video paths with the same base name are
assigned the same transient working directory. -/
theorem tmpdir_clash :
    ("/a/vid.mp4" : String) ≠ "/b/vid.mp4" ∧
    tmpDirFor "/tmp" "/a/vid.mp4" = tmpDirFor "/tmp" "/b/vid.mp4" := by
  constructor
  · decide
  · rfl

/-- C9 amended: the transient working directory depends only on the video
file's base name; it is injective over base names (two videos get distinct
directories whenever their base names differ), not over full paths. -/
theorem tmpdir_injective_on_basenames (t p₁ p₂ : String)
    (h : pathName p₁ ≠ pathName p₂) :
    tmpDirFor t p₁ ≠ tmpDirFor t p₂ := by
  intro heq
  apply h
  unfold tmpDirFor at heq
  have hd := congrArg String.data heq
  simp only [String.data_append, List.append_assoc,
    List.append_cancel_left_eq] at hd
  exact String.ext hd

/-- C9 amended witness: distinct base names give distinct directories. -/
theorem tmpdir_injective_on_basenames_example :
    pathName "/a/vid1.mp4" ≠ pathName "/b/vid2.mp4" ∧
    tmpDirFor "/tmp" "/a/vid1.mp4" ≠ tmpDirFor "/tmp" "/b/vid2.mp4" :=
  ⟨by decide,
    tmpdir_injective_on_basenames "/tmp" "/a/vid1.mp4" "/b/vid2.mp4"
      (by decide)⟩

/-! The read-path loader of src/examples/pytorch_hdf5_video_dataset.py. -/

/-- A Python value resulting from the frame-index arithmetic of
VideoDataset.__getitem__: true division produces a float even when its
value is integral, round produces an int. -/
inductive PyVal where
  | int : ℤ → PyVal
  | float : ℚ → PyVal
  deriving DecidableEq, Repr

/-- Python true division of two integers: always a float. -/
def trueDiv (a b : ℤ) : PyVal := .float ((a : ℚ) / (b : ℚ))

/-- Formatting a value with the 08d format specifier: succeeds on an int,
raises on a float (ValueError: unknown format code for float). -/
def format08d : PyVal → Except Unit String
  | .int z => .ok (pad8 z.toNat)
  | .float _ => .error ()

/-- The frame_index list of VideoDataset.__getitem__: total is
len(frames_binary), numFrames is num_frames_per_clip. -/
def clipFrameIndex (numFrames total : Nat) : List PyVal :=
  if numFrames ≠ 0 then
    if numFrames = 1 then [trueDiv (total : ℤ) 2]
    else (List.range numFrames).map (fun (x : ℕ) =>
      .int (pyRound ((x : ℚ) *
        (((total : ℚ) - 1) / ((numFrames : ℚ) - 1)))))
  else (List.range total).map (fun (i : ℕ) => .int (i : ℤ))

/-- The keys the decode loop of __getitem__ formats and fetches, one per
entry of frame_index; the first formatting failure aborts the lookup. -/
def clipFrameKeys (numFrames total : Nat) : Except Unit (List String) :=
  mapExcept format08d (clipFrameIndex numFrames total)

/-- C10: with num_frames_per_clip = 1 the single frame index is the float
len/2 produced by true division, so formatting it as a zero-padded decimal
key raises for every clip length, and the indexed lookup never retrieves a
frame. -/
theorem single_frame_clip_always_fails (total : Nat) :
    clipFrameIndex 1 total = [.float ((total : ℚ) / 2)] ∧
    clipFrameKeys 1 total = .error () := by
  have hidx : clipFrameIndex 1 total = [trueDiv (total : ℤ) 2] := rfl
  constructor
  · rw [hidx]
    unfold trueDiv
    norm_num
  · rw [clipFrameKeys, hidx]
    rfl

end Video2Frame
